import Mathlib

/-!
Verification of the employee-management dashboard (`src/app.py`).

The application is a Streamlit front end over a PostgreSQL database with
three tables: `users`, `work_reports` and `tasks`.  We embed the database
state as three Lean lists of records and each handler's SQL statements as
pure functions on that state.  SQL `ORDER BY` is modelled by
`List.mergeSort` with the comparator the `ORDER BY` clause denotes; SQL
`SELECT ... WHERE` by `List.filter`; `JOIN` by `List.filterMap` through a
lookup of the (primary-key unique) joined row.  The SHA-256 digest from
`hashlib` is an external library call and is kept abstract as a `hash`
parameter.
-/

namespace App

/-- A calendar date, as the `DATE` columns store it. -/
structure Date where
  year : Nat
  month : Nat
  day : Nat
deriving DecidableEq, Repr

/-- Boolean calendar order on dates (lexicographic year, month, day),
the order PostgreSQL uses for `DATE` comparison and `ORDER BY`. -/
def Date.ble (a b : Date) : Bool :=
  a.year < b.year ||
    (a.year == b.year &&
      (a.month < b.month || (a.month == b.month && a.day ≤ b.day)))

/-- Gregorian leap-year rule. -/
def isLeap (y : Nat) : Bool :=
  (y % 4 == 0 && y % 100 != 0) || (y % 400 == 0)

/-- Number of days in a month of a given year. -/
def daysInMonth (y m : Nat) : Nat :=
  if m == 2 then (if isLeap y then 29 else 28)
  else if m == 4 || m == 6 || m == 9 || m == 11 then 30
  else 31

/-- The calendar successor of a date (`+ timedelta(days=1)`). -/
def Date.next (d : Date) : Date :=
  if d.day < daysInMonth d.year d.month then ⟨d.year, d.month, d.day + 1⟩
  else if d.month < 12 then ⟨d.year, d.month + 1, 1⟩
  else ⟨d.year + 1, 1, 1⟩

/-- Python `d + timedelta(days=n)`. -/
def Date.addDays (d : Date) : Nat → Date
  | 0 => d
  | n + 1 => (d.addDays n).next

/-- A row of the `users` table. -/
structure User where
  id : Nat
  username : String
  password : String
  role : String
deriving DecidableEq, Repr

/-- A row of the `work_reports` table. -/
structure WorkReport where
  id : Nat
  user_id : Nat
  report_date : Date
  report_content : String
deriving DecidableEq, Repr

/-- A row of the `tasks` table. -/
structure Task where
  id : Nat
  user_id : Nat
  task_description : String
  due_date : Date
  status : String
deriving DecidableEq, Repr

/-- The database state: the three tables created by `init_db`. -/
structure DB where
  users : List User
  work_reports : List WorkReport
  tasks : List Task
deriving DecidableEq, Repr

/-- The four values of the "Report Period" selectbox. -/
inductive Period
  | Daily
  | Weekly
  | Monthly
  | Yearly
deriving DecidableEq, Repr

/-- The period condition appended to the report query (`admin_view_reports`
lines 225–237 and `employee_view_reports` lines 397–409): `Daily` compares
`report_date = selected_date`; `Weekly` uses
`report_date BETWEEN selected_date AND selected_date + 6 days`; `Monthly`
compares `EXTRACT(YEAR)` and `EXTRACT(MONTH)`; `Yearly` compares
`EXTRACT(YEAR)`. -/
def periodPred (p : Period) (anchor d : Date) : Bool :=
  match p with
  | .Daily => d == anchor
  | .Weekly => anchor.ble d && d.ble (anchor.addDays 6)
  | .Monthly => d.year == anchor.year && d.month == anchor.month
  | .Yearly => d.year == anchor.year

/-- Function `employee_view_reports`: rows of `work_reports` with
`user_id = %s` and the period condition, `ORDER BY report_date DESC`. -/
def employee_view_reports (db : DB) (user_id : Nat) (p : Period)
    (selected_date : Date) : List WorkReport :=
  (db.work_reports.filter
      (fun wr => wr.user_id == user_id && periodPred p selected_date wr.report_date)).mergeSort
    (fun a b => Date.ble b.report_date a.report_date)

/-- A row of the admin report query result
(`SELECT u.username, wr.report_date, wr.report_content`). -/
structure ReportRow where
  username : String
  report_date : Date
  report_content : String
deriving DecidableEq, Repr

/-- The `FROM work_reports wr JOIN users u ON wr.user_id = u.id` base of
`admin_view_reports`: each report paired with its owning user's name. -/
def joinedReportRows (db : DB) : List ReportRow :=
  db.work_reports.filterMap
    (fun wr =>
      (db.users.find? (fun u => u.id == wr.user_id)).map
        (fun u => ReportRow.mk u.username wr.report_date wr.report_content))

/-- Function `admin_view_reports`: joined rows, optionally restricted to
`u.username = %s` (`selected = some name`; "All Employees" is `none`),
restricted by the period condition, `ORDER BY wr.report_date DESC`. -/
def admin_view_reports (db : DB) (selected : Option String) (p : Period)
    (selected_date : Date) : List ReportRow :=
  ((joinedReportRows db).filter
      (fun row =>
        (match selected with
          | none => true
          | some name => row.username == name) &&
          periodPred p selected_date row.report_date)).mergeSort
    (fun a b => Date.ble b.report_date a.report_date)

/-- Function `authenticate` (lines 85–96): hash the supplied password and select the
user row whose `username` and `password` columns both match; `fetchone`
returns the row or nothing.  The SHA-256 digest is the abstract `hash`
parameter. -/
def authenticate (hash : String → String) (users : List User)
    (username password : String) : Option User :=
  users.find? (fun u => u.username == username && u.password == hash password)

/-- Outcome reported by `employee_submit_report`: the update branch, the
insert branch, or the "Please enter your work report!" warning. -/
inductive SubmitOutcome
  | updated
  | created
  | blankContent
deriving DecidableEq, Repr

/-- The storage part of `employee_submit_report` (lines 333–360): select
the existing report id for `(user_id, report_date)` (`fetchone`), and
either `UPDATE work_reports SET report_content = ... WHERE id =` that id,
or `INSERT` a new row (with the fresh serial id).  Returns which branch
ran, for the success message. -/
def upsert (db : DB) (user_id : Nat) (report_date : Date)
    (report_content : String) (fresh_id : Nat) : DB × SubmitOutcome :=
  match db.work_reports.find?
      (fun wr => wr.user_id == user_id && wr.report_date == report_date) with
  | some existing =>
      ({ db with
          work_reports :=
            db.work_reports.map
              (fun wr =>
                if wr.id == existing.id then
                  { wr with report_content := report_content }
                else wr) },
        .updated)
  | none =>
      ({ db with
          work_reports :=
            db.work_reports ++ [⟨fresh_id, user_id, report_date, report_content⟩] },
        .created)

/-- Function `employee_submit_report` (lines 328–362): if the content is blank
(Python falsy) warn and touch nothing; otherwise run the upsert. -/
def employee_submit_report (db : DB) (user_id : Nat) (report_date : Date)
    (report_content : String) (fresh_id : Nat) : DB × SubmitOutcome :=
  if report_content == "" then (db, .blankContent)
  else upsert db user_id report_date report_content fresh_id

/-- Outcome reported by `admin_create_employee`: success, the caught
`UniqueViolation`, or the "Please fill all fields!" warning. -/
inductive CreateOutcome
  | created
  | duplicateUsername
  | missingFields
deriving DecidableEq, Repr

/-- Function `admin_create_employee` (lines 114–131): if username or password is
blank warn and touch nothing; otherwise insert a `role = 'employee'` row,
unless the `UNIQUE` constraint on `username` fires. -/
def admin_create_employee (hash : String → String) (db : DB)
    (username password : String) (fresh_id : Nat) : DB × CreateOutcome :=
  if username == "" || password == "" then (db, .missingFields)
  else if db.users.any (fun u => u.username == username) then
    (db, .duplicateUsername)
  else
    ({ db with users := db.users ++ [⟨fresh_id, username, hash password, "employee"⟩] },
      .created)

/-- Outcome of the submit branch of `admin_assign_task`. -/
inductive AssignOutcome
  | assigned
  | missingFields
  | noSuchEmployee
deriving DecidableEq, Repr

/-- Function `admin_assign_task`, form branch (lines 283–295): if the selection or
the description is blank warn and touch nothing; otherwise insert a task
for the selected employee's id.  The selectbox only offers usernames of
`role = 'employee'` rows, so the lookup failure (`noSuchEmployee`, a
`StopIteration` in Python) is unreachable through the UI. -/
def admin_assign_task (db : DB) (selected_employee task_description : String)
    (due_date : Date) (fresh_id : Nat) : DB × AssignOutcome :=
  if selected_employee == "" || task_description == "" then (db, .missingFields)
  else
    match (db.users.filter (fun u => u.role == "employee")).find?
        (fun u => u.username == selected_employee) with
    | none => (db, .noSuchEmployee)
    | some e =>
        ({ db with
            tasks := db.tasks ++ [⟨fresh_id, e.id, task_description, due_date, "pending"⟩] },
          .assigned)

/-- A row of the admin "Existing Tasks" query
(`SELECT t.id, u.username, t.task_description, t.due_date, t.status`). -/
structure TaskRow where
  id : Nat
  username : String
  task_description : String
  due_date : Date
  status : String
deriving DecidableEq, Repr

/-- Function `admin_assign_task`, listing (lines 300–305):
`FROM tasks t JOIN users u ON t.user_id = u.id ORDER BY t.due_date ASC`. -/
def admin_task_list (db : DB) : List TaskRow :=
  (db.tasks.filterMap
      (fun t =>
        (db.users.find? (fun u => u.id == t.user_id)).map
          (fun u => TaskRow.mk t.id u.username t.task_description t.due_date t.status))).mergeSort
    (fun a b => Date.ble a.due_date b.due_date)

/-- SQL `CASE WHEN status = 'pending' THEN 0 ELSE 1 END`. -/
def statusKey (s : String) : Nat := if s == "pending" then 0 else 1

/-- The employee task ordering: status key first, then `due_date ASC`. -/
def taskOrd (a b : Task) : Bool :=
  statusKey a.status < statusKey b.status ||
    (statusKey a.status == statusKey b.status && Date.ble a.due_date b.due_date)

/-- Function `employee_view_tasks`, listing (lines 434–441): tasks with
`user_id = %s`, `ORDER BY CASE WHEN status = 'pending' THEN 0 ELSE 1 END,
due_date ASC`. -/
def employee_view_tasks (db : DB) (user_id : Nat) : List Task :=
  (db.tasks.filter (fun t => t.user_id == user_id)).mergeSort taskOrd

/-- Function `employee_view_tasks`, completion branch (lines 464–474):
`UPDATE tasks SET status = 'completed' WHERE id = %s`. -/
def complete_task (db : DB) (task_id : Nat) : DB :=
  { db with
      tasks :=
        db.tasks.map
          (fun t => if t.id == task_id then { t with status := "completed" } else t) }

/-- Statement `DELETE FROM work_reports WHERE user_id = %s` (line 154). -/
def delete_user_reports (db : DB) (uid : Nat) : DB :=
  { db with work_reports := db.work_reports.filter (fun wr => !(wr.user_id == uid)) }

/-- Statement `DELETE FROM tasks WHERE user_id = %s` (line 155). -/
def delete_user_tasks (db : DB) (uid : Nat) : DB :=
  { db with tasks := db.tasks.filter (fun t => !(t.user_id == uid)) }

/-- Statement `DELETE FROM users WHERE id = %s` (line 156). -/
def delete_user_row (db : DB) (uid : Nat) : DB :=
  { db with users := db.users.filter (fun u => !(u.id == uid)) }

/-- Function `admin_manage_employees`, removal branch (lines 139–160): the selectbox
offers only `role = 'employee'` usernames; on "Remove Employee" the
related report and task rows are deleted first, then the user row.  With
nothing selected (`none`) the button does nothing. -/
def admin_manage_employees_remove (db : DB) (selected_employee : String) : DB :=
  match (db.users.filter (fun u => u.role == "employee")).find?
      (fun u => u.username == selected_employee) with
  | none => db
  | some e => delete_user_row (delete_user_tasks (delete_user_reports db e.id) e.id) e.id

/-- The session holder `st.session_state.user`: nothing, or the
authenticated user's row. -/
inductive Session
  | anonymous
  | authenticated (user : User)
deriving DecidableEq, Repr

/-- On a new connection `'user' not in st.session_state`, so `main` sets
`st.session_state.user = None` (lines 489–490). -/
def initSession : Session := .anonymous

/-- The two sidebar events of `main`: submitting the login form, and
clicking Logout. -/
inductive UIEvent
  | loginAttempt (username password : String)
  | logoutClick
deriving DecidableEq, Repr

/-- The sidebar of `main` (lines 496–518): when anonymous, the login form
is shown and a successful `authenticate` stores the user (a failure shows
an error and stores nothing); when authenticated, only the Logout button
is shown and it resets the session to `None`. -/
def sessionStep (hash : String → String) (users : List User) (s : Session) :
    UIEvent → Session
  | .loginAttempt u p =>
      match s with
      | .anonymous =>
          match authenticate hash users u p with
          | some user => .authenticated user
          | none => .anonymous
      | .authenticated v => .authenticated v
  | .logoutClick =>
      match s with
      | .anonymous => .anonymous
      | .authenticated _ => .anonymous

/-- Every database-mutating user action the application offers. -/
inductive Op
  | createEmployee (username password : String) (fresh_id : Nat)
  | removeEmployee (selected_employee : String)
  | assignTask (selected_employee task_description : String) (due_date : Date)
      (fresh_id : Nat)
  | submitReport (user_id : Nat) (report_date : Date) (report_content : String)
      (fresh_id : Nat)
  | completeTask (task_id : Nat)
deriving DecidableEq, Repr

/-- The database effect of each user action. -/
def applyOp (hash : String → String) (db : DB) : Op → DB
  | .createEmployee u p f => (admin_create_employee hash db u p f).1
  | .removeEmployee s => admin_manage_employees_remove db s
  | .assignTask s d due f => (admin_assign_task db s d due f).1
  | .submitReport uid d c f => (employee_submit_report db uid d c f).1
  | .completeTask tid => complete_task db tid

/-- A concrete state: an admin, one employee (id 2), and a single report
dated 2024-03-14. -/
def exDB : DB :=
  { users := [⟨1, "admin", "h-admin123", "admin"⟩, ⟨2, "alice", "h-pw", "employee"⟩],
    work_reports := [⟨1, 2, ⟨2024, 3, 14⟩, "wrote code"⟩],
    tasks := [] }

/-- A concrete state for the C3 scenario: for employee alice (id 2), a
completed task due 2024-01-01 (d1) and pending tasks due 2024-01-03 (d2)
and 2024-01-02 (d3), so d2 > d3. -/
def taskDB : DB :=
  { users := [⟨1, "admin", "h-admin123", "admin"⟩, ⟨2, "alice", "h-pw", "employee"⟩],
    work_reports := [],
    tasks :=
      [⟨1, 2, "retro", ⟨2024, 1, 1⟩, "completed"⟩,
       ⟨2, 2, "plan", ⟨2024, 1, 3⟩, "pending"⟩,
       ⟨3, 2, "review", ⟨2024, 1, 2⟩, "pending"⟩] }

/-! ## Order lemmas for the `ORDER BY` comparators -/

theorem Date.ble_iff (a b : Date) :
    a.ble b = true ↔
      a.year < b.year ∨
        (a.year = b.year ∧
          (a.month < b.month ∨ (a.month = b.month ∧ a.day ≤ b.day))) := by
  simp [Date.ble]

theorem Date.ble_trans {a b c : Date} (hab : a.ble b = true)
    (hbc : b.ble c = true) : a.ble c = true := by
  rw [Date.ble_iff] at hab hbc ⊢
  omega

theorem Date.ble_total (a b : Date) : (a.ble b || b.ble a) = true := by
  rw [Bool.or_eq_true, Date.ble_iff, Date.ble_iff]
  omega

theorem reportDesc_trans (a b c : WorkReport)
    (hab : Date.ble b.report_date a.report_date = true)
    (hbc : Date.ble c.report_date b.report_date = true) :
    Date.ble c.report_date a.report_date = true :=
  Date.ble_trans hbc hab

theorem reportDesc_total (a b : WorkReport) :
    (Date.ble b.report_date a.report_date ||
      Date.ble a.report_date b.report_date) = true :=
  Date.ble_total b.report_date a.report_date

theorem rowDesc_trans (a b c : ReportRow)
    (hab : Date.ble b.report_date a.report_date = true)
    (hbc : Date.ble c.report_date b.report_date = true) :
    Date.ble c.report_date a.report_date = true :=
  Date.ble_trans hbc hab

theorem rowDesc_total (a b : ReportRow) :
    (Date.ble b.report_date a.report_date ||
      Date.ble a.report_date b.report_date) = true :=
  Date.ble_total b.report_date a.report_date

/-! ## C1: period-filtered report reads -/

/-- C1: the filtered report read (employee and admin variants) returns
exactly the rows whose `report_date` satisfies the resolved period
predicate — Daily: equality with the anchor; Weekly: the closed range
from the anchor to the anchor plus six days; Monthly: same year and
month; Yearly: same year — ordered by `report_date` descending, and when
no row matches the result is the empty list, not an error. -/
theorem filtered_report_read_correct (db : DB) (uid : Nat) (p : Period)
    (anchor : Date) (sel : Option String) :
    (∀ wr : WorkReport,
        wr ∈ employee_view_reports db uid p anchor ↔
          wr ∈ db.work_reports ∧ wr.user_id = uid ∧
            periodPred p anchor wr.report_date = true) ∧
    List.Sorted (fun a b : WorkReport => Date.ble b.report_date a.report_date = true)
      (employee_view_reports db uid p anchor) ∧
    (∀ row : ReportRow,
        row ∈ admin_view_reports db sel p anchor ↔
          row ∈ joinedReportRows db ∧
            (∀ name, sel = some name → row.username = name) ∧
            periodPred p anchor row.report_date = true) ∧
    List.Sorted (fun a b : ReportRow => Date.ble b.report_date a.report_date = true)
      (admin_view_reports db sel p anchor) ∧
    (∀ d, periodPred .Daily anchor d = true ↔ d = anchor) ∧
    (∀ d, periodPred .Weekly anchor d = true ↔
        (anchor.ble d = true ∧ d.ble (anchor.addDays 6) = true)) ∧
    (∀ d, periodPred .Monthly anchor d = true ↔
        (d.year = anchor.year ∧ d.month = anchor.month)) ∧
    (∀ d, periodPred .Yearly anchor d = true ↔ d.year = anchor.year) ∧
    ((∀ wr ∈ db.work_reports,
        ¬(wr.user_id = uid ∧ periodPred p anchor wr.report_date = true)) →
      employee_view_reports db uid p anchor = []) := by
  have hmemE : ∀ wr : WorkReport,
      wr ∈ employee_view_reports db uid p anchor ↔
        wr ∈ db.work_reports ∧ wr.user_id = uid ∧
          periodPred p anchor wr.report_date = true := by
    intro wr
    unfold employee_view_reports
    rw [(List.mergeSort_perm _ _).mem_iff, List.mem_filter]
    simp [and_assoc]
  refine ⟨hmemE, ?_, ?_, ?_, ?_, ?_, ?_, ?_, ?_⟩
  · exact List.sorted_mergeSort
      (fun a b c => reportDesc_trans a b c) (fun a b => reportDesc_total a b) _
  · intro row
    unfold admin_view_reports
    rw [(List.mergeSort_perm _ _).mem_iff, List.mem_filter]
    cases sel <;> simp [and_assoc]
  · exact List.sorted_mergeSort
      (fun a b c => rowDesc_trans a b c) (fun a b => rowDesc_total a b) _
  · intro d; simp [periodPred]
  · intro d; simp [periodPred]
  · intro d; simp [periodPred]
  · intro d; simp [periodPred]
  · intro hnone
    rw [List.eq_nil_iff_forall_not_mem]
    intro wr hwr
    rw [hmemE] at hwr
    exact hnone wr hwr.1 ⟨hwr.2.1, hwr.2.2⟩

theorem filtered_report_read_correct_witness :
    employee_view_reports exDB 2 .Daily ⟨2024, 3, 15⟩ = [] :=
  (filtered_report_read_correct exDB 2 .Daily ⟨2024, 3, 15⟩ none).2.2.2.2.2.2.2.2
    (by decide)

/-! ## C2: the read-before-write upsert -/

theorem filter_eq_single_of_find {α : Type} (p : α → Bool) (l : List α) (w : α)
    (hf : l.find? p = some w) (hc : l.countP p ≤ 1) : l.filter p = [w] := by
  have hw : w ∈ l.filter p :=
    List.mem_filter.2 ⟨List.mem_of_find?_eq_some hf, List.find?_some hf⟩
  have hpos : 0 < (l.filter p).length :=
    List.length_pos.2 (by rintro hnil; rw [hnil] at hw; cases hw)
  have hle : (l.filter p).length ≤ 1 := by
    rw [← List.countP_eq_length_filter]; exact hc
  obtain ⟨a, ha⟩ := List.length_eq_one.1 (Nat.le_antisymm hle hpos)
  rw [ha] at hw ⊢
  simp only [List.mem_singleton] at hw
  rw [hw]

theorem update_preserves_pair (uid : Nat) (d : Date) (i : Nat) (c : String) :
    ((fun wr => wr.user_id == uid && wr.report_date == d) ∘
        (fun wr =>
          if wr.id == i then { wr with report_content := c } else wr)) =
      (fun wr : WorkReport => wr.user_id == uid && wr.report_date == d) := by
  funext wr
  by_cases h : wr.id = i <;> simp [h]

/-- One upsert establishes the single-row invariant for the pair: starting
from at most one matching row, exactly one row matches afterwards and its
content is the argument. -/
theorem upsert_filter (db : DB) (uid : Nat) (d : Date) (c : String) (f : Nat)
    (hinv : db.work_reports.countP
        (fun wr => wr.user_id == uid && wr.report_date == d) ≤ 1) :
    ∃ i, (upsert db uid d c f).1.work_reports.filter
        (fun wr => wr.user_id == uid && wr.report_date == d) =
      [WorkReport.mk i uid d c] := by
  unfold upsert
  cases hf : db.work_reports.find?
      (fun wr => wr.user_id == uid && wr.report_date == d) with
  | none =>
      refine ⟨f, ?_⟩
      simp only
      rw [List.filter_append, List.filter_eq_nil_iff.2 (List.find?_eq_none.1 hf)]
      simp
  | some w =>
      refine ⟨w.id, ?_⟩
      simp only
      rw [List.filter_map, update_preserves_pair,
        filter_eq_single_of_find _ _ _ hf hinv]
      have hpair := List.find?_some hf
      simp only [Bool.and_eq_true, beq_iff_eq] at hpair
      obtain ⟨hu, hd⟩ := hpair
      simp [← hu, ← hd]

/-- The upsert reports the update branch exactly when a matching row
exists. -/
theorem upsert_outcome_updated (db : DB) (uid : Nat) (d : Date) (c : String)
    (f : Nat)
    (h : ∃ wr ∈ db.work_reports,
        (fun wr : WorkReport => wr.user_id == uid && wr.report_date == d) wr = true) :
    (upsert db uid d c f).2 = .updated := by
  unfold upsert
  cases hf : db.work_reports.find?
      (fun wr => wr.user_id == uid && wr.report_date == d) with
  | none =>
      exfalso
      obtain ⟨wr, hm, hp⟩ := h
      exact List.find?_eq_none.1 hf wr hm hp
  | some w => rfl

/-- C2: two successive upserts for the same `(user_id, report_date)` pair
leave exactly one matching row, holding the second content; the first
call reports `updated` exactly when a matching row already existed
(otherwise `created`), and the second call always reports `updated`. -/
theorem upsert_twice_single_row (db : DB) (uid : Nat) (d : Date)
    (c1 c2 : String) (f1 f2 : Nat)
    (hinv : db.work_reports.countP
        (fun wr => wr.user_id == uid && wr.report_date == d) ≤ 1) :
    (((upsert (upsert db uid d c1 f1).1 uid d c2 f2).1.work_reports.filter
          (fun wr => wr.user_id == uid && wr.report_date == d)).map
        (fun wr => wr.report_content) = [c2]) ∧
    ((upsert db uid d c1 f1).2 = .updated ↔
      ∃ wr ∈ db.work_reports, wr.user_id = uid ∧ wr.report_date = d) ∧
    ((upsert db uid d c1 f1).2 = .created ↔
      ¬∃ wr ∈ db.work_reports, wr.user_id = uid ∧ wr.report_date = d) ∧
    (upsert (upsert db uid d c1 f1).1 uid d c2 f2).2 = .updated := by
  obtain ⟨i, hi⟩ := upsert_filter db uid d c1 f1 hinv
  have hinv1 : (upsert db uid d c1 f1).1.work_reports.countP
      (fun wr => wr.user_id == uid && wr.report_date == d) ≤ 1 := by
    rw [List.countP_eq_length_filter, hi]
    simp
  obtain ⟨j, hj⟩ := upsert_filter (upsert db uid d c1 f1).1 uid d c2 f2 hinv1
  have hexists1 : ∃ wr ∈ (upsert db uid d c1 f1).1.work_reports,
      (fun wr : WorkReport => wr.user_id == uid && wr.report_date == d) wr = true := by
    refine ⟨WorkReport.mk i uid d c1, ?_, by simp⟩
    have : WorkReport.mk i uid d c1 ∈
        (upsert db uid d c1 f1).1.work_reports.filter
          (fun wr => wr.user_id == uid && wr.report_date == d) := by
      rw [hi]; simp
    exact (List.mem_filter.1 this).1
  refine ⟨?_, ?_, ?_, ?_⟩
  · rw [hj]; simp
  · unfold upsert
    cases hf : db.work_reports.find?
        (fun wr => wr.user_id == uid && wr.report_date == d) with
    | none =>
        simp only
        constructor
        · intro h; cases h
        · intro ⟨wr, hm, hu, hd⟩
          have := List.find?_eq_none.1 hf wr hm
          simp [hu, hd] at this
    | some w =>
        simp only
        constructor
        · intro _
          refine ⟨w, List.mem_of_find?_eq_some hf, ?_⟩
          have := List.find?_some hf
          simp only [Bool.and_eq_true, beq_iff_eq] at this
          exact this
        · intro _; trivial
  · unfold upsert
    cases hf : db.work_reports.find?
        (fun wr => wr.user_id == uid && wr.report_date == d) with
    | none =>
        simp only
        constructor
        · intro _
          intro ⟨wr, hm, hu, hd⟩
          have := List.find?_eq_none.1 hf wr hm
          simp [hu, hd] at this
        · intro _; trivial
    | some w =>
        simp only
        constructor
        · intro h; cases h
        · intro h
          exfalso
          refine h ⟨w, List.mem_of_find?_eq_some hf, ?_⟩
          have := List.find?_some hf
          simp only [Bool.and_eq_true, beq_iff_eq] at this
          exact this
  · exact upsert_outcome_updated _ uid d c2 f2 hexists1

theorem upsert_twice_single_row_witness :
    (((upsert (upsert exDB 2 ⟨2024, 3, 14⟩ "draft" 7).1 2 ⟨2024, 3, 14⟩
          "final" 8).1.work_reports.filter
        (fun wr => wr.user_id == 2 && wr.report_date == ⟨2024, 3, 14⟩)).map
      (fun wr => wr.report_content) = ["final"]) ∧
    (upsert exDB 2 ⟨2024, 3, 14⟩ "draft" 7).2 = .updated := by
  have h := upsert_twice_single_row exDB 2 ⟨2024, 3, 14⟩ "draft" "final" 7 8
    (by decide)
  exact ⟨h.1, h.2.1.2 ⟨⟨1, 2, ⟨2024, 3, 14⟩, "wrote code"⟩, by decide, rfl, rfl⟩⟩

/-! ## C3: task listing order -/

theorem taskOrd_trans (a b c : Task) (hab : taskOrd a b = true)
    (hbc : taskOrd b c = true) : taskOrd a c = true := by
  simp only [taskOrd, Bool.or_eq_true, Bool.and_eq_true, decide_eq_true_eq,
    beq_iff_eq] at hab hbc ⊢
  rcases hab with h1 | ⟨h1, h2⟩
  · rcases hbc with h3 | ⟨h3, h4⟩
    · exact Or.inl (Nat.lt_trans h1 h3)
    · exact Or.inl (h3 ▸ h1)
  · rcases hbc with h3 | ⟨h3, h4⟩
    · exact Or.inl (h1 ▸ h3)
    · exact Or.inr ⟨h1.trans h3, Date.ble_trans h2 h4⟩

theorem taskOrd_total (a b : Task) : (taskOrd a b || taskOrd b a) = true := by
  simp only [taskOrd, Bool.or_eq_true, Bool.and_eq_true, decide_eq_true_eq,
    beq_iff_eq]
  have hd := Date.ble_total a.due_date b.due_date
  rw [Bool.or_eq_true] at hd
  rcases Nat.lt_trichotomy (statusKey a.status) (statusKey b.status) with h | h | h
  · exact Or.inl (Or.inl h)
  · rcases hd with hd | hd
    · exact Or.inl (Or.inr ⟨h, hd⟩)
    · exact Or.inr (Or.inr ⟨h.symm, hd⟩)
  · exact Or.inr (Or.inl h)

theorem rowAsc_trans (a b c : TaskRow)
    (hab : Date.ble a.due_date b.due_date = true)
    (hbc : Date.ble b.due_date c.due_date = true) :
    Date.ble a.due_date c.due_date = true :=
  Date.ble_trans hab hbc

theorem rowAsc_total (a b : TaskRow) :
    (Date.ble a.due_date b.due_date || Date.ble b.due_date a.due_date) = true :=
  Date.ble_total a.due_date b.due_date

/-- C3 counterexample: the admin "Existing Tasks" listing (`list_for(all)`)
orders by `due_date ASC` alone, so in the C3 scenario the completed task
(earliest due date) comes first and the listing is not ordered with
pending before completed, contradicting the claim for `list_for(all)`. -/
theorem admin_task_list_due_date_only :
    (admin_task_list taskDB).map (fun r => r.status) =
      ["completed", "pending", "pending"] ∧
    ¬ List.Sorted (fun a b : TaskRow => statusKey a.status ≤ statusKey b.status)
      (admin_task_list taskDB) := by
  have h : admin_task_list taskDB =
      [⟨1, "alice", "retro", ⟨2024, 1, 1⟩, "completed"⟩,
       ⟨3, "alice", "review", ⟨2024, 1, 2⟩, "pending"⟩,
       ⟨2, "alice", "plan", ⟨2024, 1, 3⟩, "pending"⟩] := by
    simp [admin_task_list, taskDB, List.mergeSort, List.merge, Date.ble,
      List.filterMap, List.find?]
  rw [h]
  exact ⟨rfl, by decide⟩

/-- C3 (amended): only the employee task listing (`list_for(user_id)`) is
ordered primarily by status (pending before completed) and secondarily by
`due_date` ascending, and it holds exactly the acting user's tasks; the
admin listing of all tasks is ordered by `due_date` ascending alone.  In
the C3 scenario the employee listing is the pending task due d3, the
pending task due d2, then the completed task. -/
theorem task_list_ordering (db : DB) (uid : Nat) :
    (∀ t : Task, t ∈ employee_view_tasks db uid ↔ t ∈ db.tasks ∧ t.user_id = uid) ∧
    List.Sorted (fun a b : Task => taskOrd a b = true) (employee_view_tasks db uid) ∧
    List.Sorted (fun a b : TaskRow => Date.ble a.due_date b.due_date = true)
      (admin_task_list db) ∧
    (employee_view_tasks taskDB 2).map (fun t => (t.status, t.due_date)) =
      [("pending", ⟨2024, 1, 2⟩), ("pending", ⟨2024, 1, 3⟩),
       ("completed", ⟨2024, 1, 1⟩)] := by
  refine ⟨?_, ?_, ?_, ?_⟩
  · intro t
    unfold employee_view_tasks
    rw [(List.mergeSort_perm _ _).mem_iff, List.mem_filter]
    simp
  · exact List.sorted_mergeSort
      (fun a b c => taskOrd_trans a b c) (fun a b => taskOrd_total a b) _
  · exact List.sorted_mergeSort
      (fun a b c => rowAsc_trans a b c) (fun a b => rowAsc_total a b) _
  · simp [employee_view_tasks, taskDB, List.mergeSort, List.merge, taskOrd,
      statusKey, Date.ble]

/-! ## C4: authentication -/

/-- C4: `authenticate` succeeds exactly when some stored record has the
given username and the digest of the given password; any returned row is
such a stored record; and both failure modes — unknown username and wrong
password — produce the same not-found value `none`, leaking no detail. -/
theorem authenticate_correct (hash : String → String) (users : List User)
    (u p : String) :
    ((authenticate hash users u p).isSome ↔
      ∃ r ∈ users, r.username = u ∧ r.password = hash p) ∧
    (∀ r, authenticate hash users u p = some r →
      r ∈ users ∧ r.username = u ∧ r.password = hash p) ∧
    ((¬∃ r ∈ users, r.username = u) → authenticate hash users u p = none) ∧
    ((¬∃ r ∈ users, r.password = hash p) → authenticate hash users u p = none) := by
  have hchar : ∀ r : User,
      (fun r : User => r.username == u && r.password == hash p) r = true ↔
        r.username = u ∧ r.password = hash p := by
    intro r; simp
  refine ⟨?_, ?_, ?_, ?_⟩
  · unfold authenticate
    rw [List.find?_isSome]
    constructor
    · intro ⟨r, hm, hp⟩; exact ⟨r, hm, (hchar r).1 hp⟩
    · intro ⟨r, hm, hp⟩; exact ⟨r, hm, (hchar r).2 hp⟩
  · intro r hr
    have hm := List.mem_of_find?_eq_some hr
    have hp := List.find?_some hr
    exact ⟨hm, (hchar r).1 hp⟩
  · intro hno
    unfold authenticate
    rw [List.find?_eq_none]
    intro r hm hp
    exact hno ⟨r, hm, ((hchar r).1 hp).1⟩
  · intro hno
    unfold authenticate
    rw [List.find?_eq_none]
    intro r hm hp
    exact hno ⟨r, hm, ((hchar r).1 hp).2⟩

theorem authenticate_correct_witness :
    authenticate (fun s => String.append "h-" s) exDB.users "mallory" "admin123" =
      none :=
  (authenticate_correct (fun s => String.append "h-" s) exDB.users "mallory"
      "admin123").2.2.1 (by decide)

/-! ## C5: cascade on employee deletion -/

/-- C5: removing the selected employee runs the report delete and the task
delete before the user delete, and afterwards zero rows in any of the
three tables reference that employee's id (for any number of report and
task rows, including none). -/
theorem remove_employee_cascades (db : DB) (name : String) (e : User)
    (hfind : (db.users.filter (fun u => u.role == "employee")).find?
        (fun u => u.username == name) = some e) :
    admin_manage_employees_remove db name =
      delete_user_row (delete_user_tasks (delete_user_reports db e.id) e.id) e.id ∧
    (admin_manage_employees_remove db name).work_reports.countP
        (fun wr => wr.user_id == e.id) = 0 ∧
    (admin_manage_employees_remove db name).tasks.countP
        (fun t => t.user_id == e.id) = 0 ∧
    (admin_manage_employees_remove db name).users.countP
        (fun u => u.id == e.id) = 0 := by
  have hstep : admin_manage_employees_remove db name =
      delete_user_row (delete_user_tasks (delete_user_reports db e.id) e.id) e.id := by
    unfold admin_manage_employees_remove
    simp only [hfind]
  refine ⟨hstep, ?_, ?_, ?_⟩ <;> rw [hstep] <;>
    simp only [delete_user_row, delete_user_tasks, delete_user_reports] <;>
    rw [List.countP_eq_length_filter] <;>
    rw [List.filter_eq_nil_iff.2 ?_] <;>
    first
      | rfl
      | (intro a ha
         have := (List.mem_filter.1 ha).2
         simp_all)

theorem remove_employee_cascades_witness :
    (admin_manage_employees_remove exDB "alice").work_reports.countP
        (fun wr => wr.user_id == 2) = 0 ∧
    (admin_manage_employees_remove exDB "alice").users.countP
        (fun u => u.id == 2) = 0 := by
  have h := remove_employee_cascades exDB "alice"
    ⟨2, "alice", "h-pw", "employee"⟩ (by decide)
  exact ⟨h.2.1, h.2.2.2⟩

/-! ## C6: task completion is idempotent and irreversible -/

theorem create_tasks_unchanged (hash : String → String) (db : DB)
    (u pw : String) (f : Nat) :
    (admin_create_employee hash db u pw f).1.tasks = db.tasks := by
  unfold admin_create_employee
  split
  · rfl
  · split <;> rfl

theorem submit_tasks_unchanged (db : DB) (uid : Nat) (d : Date) (c : String)
    (f : Nat) : (employee_submit_report db uid d c f).1.tasks = db.tasks := by
  unfold employee_submit_report upsert
  split
  · rfl
  · split <;> rfl

/-- C6: `complete` sets the selected task's status to `completed`, running
it a second time is a state-preserving no-op, and no operation of the
program moves a task from `completed` back to `pending`: after any
operation, every `pending` row either was already present or is the fresh
row inserted by the task-assignment form. -/
theorem complete_task_idempotent (hash : String → String) (db : DB)
    (task_id : Nat) (op : Op) :
    (∀ t ∈ db.tasks, t.id = task_id →
      Task.mk t.id t.user_id t.task_description t.due_date "completed" ∈
        (complete_task db task_id).tasks) ∧
    complete_task (complete_task db task_id) task_id = complete_task db task_id ∧
    (∀ t2 ∈ (applyOp hash db op).tasks, t2.status = "pending" →
      t2 ∈ db.tasks ∨
        ∃ s dsc due f, op = .assignTask s dsc due f ∧ t2.id = f ∧
          t2.task_description = dsc ∧ t2.due_date = due) := by
  refine ⟨?_, ?_, ?_⟩
  · intro t ht hid
    unfold complete_task
    refine List.mem_map.2 ⟨t, ht, ?_⟩
    simp [hid]
  · unfold complete_task
    simp only [List.map_map]
    congr 1
    refine List.map_congr_left ?_
    intro t _
    by_cases h : t.id = task_id <;> simp [h]
  · intro t2 h2 hp
    cases op with
    | createEmployee u pw f =>
        left
        simp only [applyOp] at h2
        rw [create_tasks_unchanged hash db u pw f] at h2
        exact h2
    | removeEmployee s =>
        left
        simp only [applyOp, admin_manage_employees_remove] at h2
        split at h2
        · exact h2
        · simp only [delete_user_row, delete_user_tasks, delete_user_reports] at h2
          exact (List.mem_filter.1 h2).1
    | assignTask s dsc due f =>
        simp only [applyOp, admin_assign_task] at h2
        split at h2
        · exact Or.inl h2
        · split at h2
          · exact Or.inl h2
          · rcases List.mem_append.1 h2 with h | h
            · exact Or.inl h
            · right
              simp only [List.mem_singleton] at h
              subst h
              exact ⟨s, dsc, due, f, rfl, rfl, rfl, rfl⟩
    | submitReport uid d c f =>
        left
        simp only [applyOp] at h2
        rw [submit_tasks_unchanged db uid d c f] at h2
        exact h2
    | completeTask tid =>
        left
        simp only [applyOp, complete_task] at h2
        rcases List.mem_map.1 h2 with ⟨t, ht, heq⟩
        by_cases hid : (t.id == tid) = true
        · rw [if_pos hid] at heq
          have hcomp : t2.status = "completed" := by rw [← heq]
          rw [hp] at hcomp
          exact absurd hcomp (by decide)
        · rw [if_neg hid] at heq
          exact heq ▸ ht

theorem complete_task_idempotent_witness :
    Task.mk 1 2 "retro" ⟨2024, 1, 1⟩ "completed" ∈
      (complete_task taskDB 1).tasks :=
  (complete_task_idempotent (fun s => s) taskDB 1 (.completeTask 1)).1
    ⟨1, 2, "retro", ⟨2024, 1, 1⟩, "completed"⟩ (by decide) rfl

/-! ## C7: the session holder is a two-state machine -/

/-- C7: the session starts `Anonymous` on a new connection; from
`Anonymous` a login attempt moves to `Authenticated(u)` exactly when
`authenticate` succeeds with `u` and stays `Anonymous` when it fails,
while the logout button (absent for an anonymous session) changes
nothing; from `Authenticated(u)` the only transition is to `Anonymous` on
explicit logout, a login attempt (the form is not shown) changing
nothing. -/
theorem session_two_state_machine (hash : String → String)
    (users : List User) :
    initSession = Session.anonymous ∧
    (∀ u p, sessionStep hash users .anonymous (.loginAttempt u p) =
      (match authenticate hash users u p with
        | some r => Session.authenticated r
        | none => Session.anonymous)) ∧
    sessionStep hash users .anonymous .logoutClick = .anonymous ∧
    (∀ v, sessionStep hash users (.authenticated v) .logoutClick = .anonymous) ∧
    (∀ v u p, sessionStep hash users (.authenticated v) (.loginAttempt u p) =
      .authenticated v) :=
  ⟨rfl, fun _ _ => rfl, rfl, fun _ => rfl, fun _ _ _ => rfl⟩

/-! ## C8: employee operations touch only the acting user's rows -/

/-- C8: under unique report ids (the serial primary key), the employee
report view returns only rows with the session user's id, and the report
submission mutates only that user's rows — the sublist of every other
user's report rows is unchanged. -/
theorem employee_ops_touch_own_rows (db : DB) (uid : Nat) (p : Period)
    (anchor d : Date) (c : String) (f : Nat)
    (hids : (db.work_reports.map (fun wr => wr.id)).Nodup) :
    (∀ wr ∈ employee_view_reports db uid p anchor, wr.user_id = uid) ∧
    (employee_submit_report db uid d c f).1.work_reports.filter
        (fun wr => !(wr.user_id == uid)) =
      db.work_reports.filter (fun wr => !(wr.user_id == uid)) := by
  constructor
  · intro wr hwr
    unfold employee_view_reports at hwr
    rw [(List.mergeSort_perm _ _).mem_iff, List.mem_filter] at hwr
    have h := hwr.2
    simp only [Bool.and_eq_true, beq_iff_eq] at h
    exact h.1
  · unfold employee_submit_report
    split
    · rfl
    · unfold upsert
      cases hf : db.work_reports.find?
          (fun wr => wr.user_id == uid && wr.report_date == d) with
      | none =>
          simp only
          rw [List.filter_append]
          simp
      | some w =>
          simp only
          rw [List.filter_map]
          have hpred : ((fun wr : WorkReport => !(wr.user_id == uid)) ∘
              (fun wr =>
                if wr.id == w.id then { wr with report_content := c } else wr)) =
              (fun wr : WorkReport => !(wr.user_id == uid)) := by
            funext wr
            by_cases h : wr.id = w.id <;> simp [h]
          rw [hpred]
          have hid : ∀ r ∈ db.work_reports.filter (fun wr => !(wr.user_id == uid)),
              (fun wr =>
                if wr.id == w.id then { wr with report_content := c } else wr) r =
                id r := by
            intro r hr
            have hrm := List.mem_filter.1 hr
            have hwmem := List.mem_of_find?_eq_some hf
            have hwp := List.find?_some hf
            simp only [Bool.and_eq_true, beq_iff_eq] at hwp
            have hneq : ¬(r.id == w.id) = true := by
              intro hbe
              rw [beq_iff_eq] at hbe
              have hrw : r = w :=
                List.inj_on_of_nodup_map hids hrm.1 hwmem hbe
              have := hrm.2
              rw [hrw, hwp.1] at this
              simp at this
            show (if (r.id == w.id) = true then _ else r) = id r
            rw [if_neg hneq]
            rfl
          rw [List.map_congr_left hid, List.map_id]

theorem employee_ops_touch_own_rows_witness :
    (employee_submit_report exDB 2 ⟨2024, 3, 15⟩ "new entry" 9).1.work_reports.filter
        (fun wr => !(wr.user_id == 2)) =
      exDB.work_reports.filter (fun wr => !(wr.user_id == 2)) :=
  (employee_ops_touch_own_rows exDB 2 .Daily ⟨2024, 3, 15⟩ ⟨2024, 3, 15⟩
      "new entry" 9 (by decide)).2

/-! ## C9: blank required fields mutate nothing -/

/-- C9: an empty required field is reported as a validation failure and no
storage statement runs — blank report content on submission, blank
username or password on account creation, and blank selection or
description on task assignment all leave the database exactly as it
was. -/
theorem blank_field_no_mutation (hash : String → String) (db : DB)
    (uid : Nat) (d due : Date) (f : Nat) (u pw sel dsc : String) :
    employee_submit_report db uid d "" f = (db, .blankContent) ∧
    (u = "" ∨ pw = "" →
      admin_create_employee hash db u pw f = (db, .missingFields)) ∧
    (sel = "" ∨ dsc = "" →
      admin_assign_task db sel dsc due f = (db, .missingFields)) := by
  refine ⟨rfl, ?_, ?_⟩
  · intro h
    have hc : (u == "" || pw == "") = true := by
      rcases h with h | h <;> simp [h]
    unfold admin_create_employee
    simp [hc]
  · intro h
    have hc : (sel == "" || dsc == "") = true := by
      rcases h with h | h <;> simp [h]
    unfold admin_assign_task
    simp [hc]

theorem blank_field_no_mutation_witness :
    admin_create_employee (fun s => String.append "h-" s) exDB "" "pw" 5 =
      (exDB, .missingFields) :=
  (blank_field_no_mutation (fun s => String.append "h-" s) exDB 2 ⟨2024, 1, 1⟩
      ⟨2024, 1, 2⟩ 5 "" "pw" "alice" "task").2.1 (Or.inl rfl)

/-! ## C10: the seeded admin stays the only admin -/

theorem submit_users_unchanged (db : DB) (uid : Nat) (d : Date) (c : String)
    (f : Nat) : (employee_submit_report db uid d c f).1.users = db.users := by
  unfold employee_submit_report upsert
  split
  · rfl
  · split <;> rfl

theorem assign_users_unchanged (db : DB) (s dsc : String) (due : Date)
    (f : Nat) : (admin_assign_task db s dsc due f).1.users = db.users := by
  unfold admin_assign_task
  split
  · rfl
  · split <;> rfl

/-- C10: with unique user ids (the serial primary key), every operation
preserves the rows of role `admin` exactly: account creation only ever
inserts a `role = 'employee'` row and the removal form only offers
`role = 'employee'` rows, so the seeded admin is never deleted and no
second admin is ever created. -/
theorem admin_rows_invariant (hash : String → String) (db : DB) (op : Op)
    (hids : (db.users.map (fun u => u.id)).Nodup) :
    (applyOp hash db op).users.filter (fun u => u.role == "admin") =
      db.users.filter (fun u => u.role == "admin") ∧
    (∀ nu ∈ (applyOp hash db op).users, nu ∈ db.users ∨ nu.role = "employee") := by
  cases op with
  | createEmployee u pw f =>
      simp only [applyOp]
      unfold admin_create_employee
      split
      · exact ⟨rfl, fun nu hnu => Or.inl hnu⟩
      · split
        · exact ⟨rfl, fun nu hnu => Or.inl hnu⟩
        · constructor
          · simp only
            rw [List.filter_append]
            simp
          · intro nu hnu
            simp only at hnu
            rcases List.mem_append.1 hnu with h | h
            · exact Or.inl h
            · simp only [List.mem_singleton] at h
              subst h
              exact Or.inr rfl
  | removeEmployee s =>
      simp only [applyOp]
      unfold admin_manage_employees_remove
      cases hf : (db.users.filter (fun u => u.role == "employee")).find?
          (fun u => u.username == s) with
      | none => exact ⟨rfl, fun nu hnu => Or.inl hnu⟩
      | some e =>
          have hemem := List.mem_filter.1 (List.mem_of_find?_eq_some hf)
          have herole : e.role = "employee" := by
            have := hemem.2
            rwa [beq_iff_eq] at this
          constructor
          · simp only [delete_user_row, delete_user_tasks, delete_user_reports]
            rw [List.filter_filter]
            refine List.filter_congr ?_
            intro x hx
            by_cases hadm : x.role = "admin"
            · have hxe : ¬(x.id == e.id) = true := by
                intro hbe
                rw [beq_iff_eq] at hbe
                have hxeq : x = e :=
                  List.inj_on_of_nodup_map hids hx hemem.1 hbe
                rw [hxeq, herole] at hadm
                exact absurd hadm (by decide)
              simp [hadm, hxe]
            · simp [hadm]
          · intro nu hnu
            simp only [delete_user_row, delete_user_tasks,
              delete_user_reports] at hnu
            exact Or.inl (List.mem_filter.1 hnu).1
  | assignTask s dsc due f =>
      simp only [applyOp]
      rw [assign_users_unchanged db s dsc due f]
      exact ⟨rfl, fun nu hnu => Or.inl hnu⟩
  | submitReport uid d c f =>
      simp only [applyOp]
      rw [submit_users_unchanged db uid d c f]
      exact ⟨rfl, fun nu hnu => Or.inl hnu⟩
  | completeTask tid =>
      exact ⟨rfl, fun nu hnu => Or.inl hnu⟩

theorem admin_rows_invariant_witness :
    (applyOp (fun s => String.append "h-" s) exDB
        (.removeEmployee "alice")).users.filter (fun u => u.role == "admin") =
      exDB.users.filter (fun u => u.role == "admin") :=
  (admin_rows_invariant (fun s => String.append "h-" s) exDB
      (.removeEmployee "alice") (by decide)).1

end App
